import Mathlib

/-!
# Verification of the NMEA 2000 / J1939 CAN frame decoder

Shallow embedding of the decode core of the `nmea2000-decoder` repository.
The repository contains two implementations of the identifier decoder:

* `src/App.tsx` (`decodeCanMessage`): converts the hex input to a binary
  string and extracts bit ranges by string slicing ("binary-string variant");
* `src/unnamed/part_001` (`decodeCanMessage`): parses the hex input to a
  number and extracts fields with JavaScript 32-bit bitwise operators
  ("bitwise variant").

Both files contain a structurally identical payload decoder (`decodeData`)
and the same one-entry schema registry (`PGN_DATA`).

JavaScript strings are modelled as `List Char` (all characters involved are
in the BMP, so `.length`, `substring` and `slice` coincide with list length,
drop/take).  JavaScript numbers are modelled as `Int`/`Nat` with the 32-bit
wrap-around of the bitwise operators made explicit; `NaN` is modelled by
`Option` at the `parseInt` boundary.
-/

/-! ## JavaScript primitive models -/

/-- Digit value used by JavaScript `parseInt`: `0`-`9`, then letters
`a`-`z` / `A`-`Z` starting at 10.  Characters that are a digit in no radix
up to 36 get the sentinel value 99 (so `digitVal c < radix` means the
character is a valid digit for that radix). -/
def digitVal (c : Char) : Nat :=
  if 48 ≤ c.toNat ∧ c.toNat ≤ 57 then c.toNat - 48
  else if 97 ≤ c.toNat ∧ c.toNat ≤ 122 then c.toNat - 87
  else if 65 ≤ c.toNat ∧ c.toNat ≤ 90 then c.toNat - 55
  else 99

/-- Whitespace skipped by JavaScript `parseInt` (the common ASCII subset of
ECMAScript *WhiteSpace*/*LineTerminator*; the exotic Unicode space
characters cannot occur in the inputs considered here). -/
def isJsWhitespace (c : Char) : Bool :=
  c = ' ' || c = '\t' || c = '\n' || c = '\r' || c = '\x0b' || c = '\x0c'

/-- Optional sign of the numeric literal: `parseInt` accepts one leading
`-` or `+`.  Returns (negative?, rest). -/
def splitSign : List Char → Bool × List Char
  | [] => (false, [])
  | c :: r =>
    if c = '-' then (true, r)
    else if c = '+' then (false, r)
    else (false, c :: r)

/-- With radix 16, `parseInt` strips one leading `0x` / `0X`. -/
def stripHex0x : List Char → List Char
  | a :: b :: r =>
    if a = '0' ∧ (b = 'x' ∨ b = 'X') then r else a :: b :: r
  | l => l

/-- The value of a hex-digit string, most significant digit first
(the fold performed by `parseInt` over the accepted digits). -/
def hexVal (cs : List Char) : Nat :=
  cs.foldl (fun a c => 16 * a + digitVal c) 0

/-- Model of JavaScript `parseInt(s, 16)`: skip whitespace, accept an
optional sign and an optional `0x` prefix, then read the longest prefix of
hexadecimal digits; `none` models the `NaN` result when no digit is read.
All `parseInt` call sites in the repository pass strings of at most 8
digits, whose values are exactly representable as doubles, so the numeric
result is modelled exactly by `Int`. -/
def jsParseIntHex (cs : List Char) : Option Int :=
  let t := cs.dropWhile isJsWhitespace
  let s := splitSign t
  let ds := (stripHex0x s.2).takeWhile (fun c => digitVal c < 16)
  if ds.isEmpty then none
  else
    let v : Nat := ds.foldl (fun a c => 16 * a + digitVal c) 0
    some (if s.1 then -(v : Int) else (v : Int))

/-- The 32-bit pattern of a JavaScript number under `ToUint32`/`ToInt32`
(the operand is already an integer at every call site). -/
def toUint32 (a : Int) : Nat := (a % (4294967296 : Int)).toNat

/-- Reinterpret a 32-bit pattern as a signed (two's complement) value,
as `ToInt32` does. -/
def patToInt32 (p : Nat) : Int :=
  if p < 2147483648 then (p : Int) else (p : Int) - 4294967296

/-- 32-bit bitwise AND of two patterns, computed bit by bit (the first
argument is the remaining bit budget). -/
def natAnd : Nat → Nat → Nat → Nat
  | 0, _, _ => 0
  | f + 1, a, b => min (a % 2) (b % 2) + 2 * natAnd f (a / 2) (b / 2)

/-- JavaScript `a & b`: convert both operands with `ToInt32`, AND the
32-bit patterns, reinterpret as a signed 32-bit value. -/
def jsAnd (a b : Int) : Int :=
  patToInt32 (natAnd 32 (toUint32 a) (toUint32 b))

/-- JavaScript `a >> k` (sign-propagating right shift) for a shift count
`k < 32`: shift the 32-bit pattern of `ToInt32 a` right by `k`, the vacated
top `k` bits copying the sign bit (bit 31), and reinterpret as signed. -/
def jsShr (a : Int) (k : Nat) : Int :=
  let u := toUint32 a
  patToInt32 (u / 2 ^ k + (if u < 2147483648 then 0 else 4294967296 - 2 ^ (32 - k)))

/-! ## Data model shared by both source files -/

/-- Error cases of the identifier decoders.  The source throws `Error`
objects with fixed messages; the mapping is
`invalidLength` ↔ "Input hex string must be exactly 8 characters long.",
`invalidHexDigit` ↔ "Invalid character in hex string",
`invalidBinaryLength` ↔ "Converted binary string must be 29 bits long.". -/
inductive IdError
  | invalidLength
  | invalidHexDigit
  | invalidBinaryLength
  deriving DecidableEq

/-- Error cases of the payload decoder (`setDataError` strings):
`invalidPayloadLength` ↔ "Data must be 8 bytes (16 hex characters)",
`unknownPgn` ↔ "Unknown PGN". -/
inductive DataError
  | invalidPayloadLength
  | unknownPgn
  deriving DecidableEq

/-- The `DecodedCanMessage` / `DecodedCAN` record returned by both
identifier decoders.  `pduFormat` is the string `'PDU1'` or `'PDU2'`. -/
structure DecodedCAN where
  priority : Int
  pgn : Int
  srcAddress : Int
  destAddress : Int
  pduFormat : String
  deriving DecidableEq

instance {ε α : Type} [DecidableEq ε] [DecidableEq α] : DecidableEq (Except ε α) :=
  fun a b =>
    match a, b with
    | .error e, .error f =>
      if h : e = f then .isTrue (by rw [h]) else .isFalse (by intro hc; cases hc; exact h rfl)
    | .error _, .ok _ => .isFalse (by intro hc; cases hc)
    | .ok _, .error _ => .isFalse (by intro hc; cases hc)
    | .ok x, .ok y =>
      if h : x = y then .isTrue (by rw [h]) else .isFalse (by intro hc; cases hc; exact h rfl)

/-- A field descriptor of the `PGN_DATA` registry. -/
structure PGNField where
  name : String
  start : Nat
  length : Nat
  units : String
  deriving DecidableEq

/-- A registry entry of `PGN_DATA`. -/
structure PGNInfo where
  name : String
  fields : List PGNField
  deriving DecidableEq

/-- The single registry entry of both source files (`PGN_DATA['127508']`). -/
def vesselHeadingInfo : PGNInfo :=
  { name := "Vessel Heading"
    fields :=
      [ { name := "SID", start := 0, length := 1, units := "" }
      , { name := "Heading", start := 1, length := 2, units := "rad" }
      , { name := "Deviation", start := 3, length := 2, units := "rad" }
      , { name := "Variation", start := 5, length := 2, units := "rad" }
      , { name := "Reference", start := 7, length := 1, units := "" } ] }

/-- The registry lookup `PGN_DATA[pgn]` (`App.tsx`) /
`PGN_DATA[pgn.toString()]` (`part_001`): the object has the single key
`'127508'`, and a JavaScript number used as a property key is converted to
its decimal string, so both lookups hit exactly when `pgn = 127508`. -/
def PGN_DATA (pgn : Int) : Option PGNInfo :=
  if pgn = 127508 then some vesselHeadingInfo else none

/-! ## Binary-string identifier decoder (`src/App.tsx`) -/

/-- The minimal binary representation `v.toString(2)` of a nonnegative
integer (`['0']` for 0), computed with a structural fuel argument so that
it reduces in the kernel; the fuel is the value itself, which always
suffices. -/
def binDigitsAux : Nat → Nat → List Char
  | _, 0 => []
  | 0, _ + 1 => []
  | fuel + 1, v + 1 => binDigitsAux fuel ((v + 1) / 2) ++ [if (v + 1) % 2 = 1 then '1' else '0']

/-- `v.toString(2)` for a nonnegative integer `v`. -/
def natBinRepr (v : Nat) : List Char :=
  if v = 0 then ['0'] else binDigitsAux v v

/-- `String.prototype.padStart(n, c)`. -/
def padStart (n : Nat) (c : Char) (l : List Char) : List Char :=
  List.replicate (n - l.length) c ++ l

/-- `value.toString(2).padStart(4, '0')` from `hexToBinary`; `value` is the
result of `parseInt(char, 16)`, a nonnegative integer (a single parsed hex
digit), hence the `Int.toNat` at the call site. -/
def toBin4 (v : Nat) : List Char := padStart 4 '0' (natBinRepr v)

/-- `hexToBinary` from `src/App.tsx`: maps every character to its 4-bit
binary string and joins the results; throws
`Error('Invalid character in hex string')` at the first character on which
`parseInt(char, 16)` is `NaN`. -/
def hexToBinary : List Char → Except IdError (List Char)
  | [] => .ok []
  | c :: rest =>
    match jsParseIntHex [c] with
    | none => .error .invalidHexDigit
    | some v =>
      match hexToBinary rest with
      | .error e => .error e
      | .ok tail => .ok (toBin4 v.toNat ++ tail)

/-- `binaryToDecimal` from `src/App.tsx`, i.e. `parseInt(binary, 2)`.  At
every call site the argument is a nonempty string of `'0'`/`'1'`
characters (produced by `hexToBinary` or the literal `'00000000'`), on
which `parseInt` with radix 2 is exactly this most-significant-first
fold. -/
def binaryToDecimal (cs : List Char) : Nat :=
  cs.foldl (fun a c => 2 * a + (if c = '1' then 1 else 0)) 0

/-- `decodeCanMessage` from `src/App.tsx` (the binary-string variant).
`substring(a, b)` is modelled by `(List.drop a) ∘ (List.take b)` composed
as `fun l => (l.drop a).take (b - a)`, which agrees with JavaScript for
the in-range indices used here. -/
def decodeCanMessage (hexInput : List Char) : Except IdError DecodedCAN :=
  if hexInput.length ≠ 8 then .error .invalidLength
  else
    match hexToBinary hexInput with
    | .error e => .error e
    | .ok bits =>
      let binary := bits.drop 3
      if binary.length ≠ 29 then .error .invalidBinaryLength
      else
        let priority := binaryToDecimal (binary.take 3)
        let pdu := binaryToDecimal ((binary.drop 5).take 8)
        let pds := (binary.drop 13).take 8
        let srcAddress := binaryToDecimal ((binary.drop 21).take 8)
        if 240 ≤ pdu then
          .ok { priority := priority
                pgn := binaryToDecimal ((binary.drop 3).take 18)
                srcAddress := srcAddress
                destAddress := 255
                pduFormat := "PDU2" }
        else
          .ok { priority := priority
                pgn := binaryToDecimal (((binary.drop 3).take 10) ++ "00000000".data)
                srcAddress := srcAddress
                destAddress := binaryToDecimal pds
                pduFormat := "PDU1" }

/-! ## Bitwise identifier decoder (`src/unnamed/part_001`) -/

/-- `decodeCanMessage` from `src/unnamed/part_001` (the bitwise variant).
Only the length is validated; `parseInt` may return `NaN` (modelled by
`none`), and `ToInt32(NaN) = 0`, so `NaN` behaves as 0 in every bitwise
operator below, which is what `Option.getD 0` expresses. -/
def decodeCanMessageBitwise (hexInput : List Char) : Except IdError DecodedCAN :=
  if hexInput.length ≠ 8 then .error .invalidLength
  else
    let num : Int := (jsParseIntHex hexInput).getD 0
    let priority := jsAnd (jsShr num 26) 0x7
    let pdu := jsAnd (jsShr num 16) 0xFF
    let srcAddress := jsAnd num 0xFF
    if 240 ≤ pdu then
      .ok { priority := priority
            pgn := jsAnd (jsShr num 8) 0x3FFFF
            srcAddress := srcAddress
            destAddress := 255
            pduFormat := "PDU2" }
    else
      .ok { priority := priority
            pgn := jsAnd (jsShr num 16) 0xFF00
            srcAddress := srcAddress
            destAddress := jsAnd (jsShr num 8) 0xFF
            pduFormat := "PDU1" }

/-! ## Payload decoder (`decodeData`, identical logic in both files) -/

/-- Digits of a nonnegative integer in base 10 (fuel-structural so it
reduces in the kernel), i.e. `n.toString()` for a nonnegative integer. -/
def decDigitsAux : Nat → Nat → List Char
  | _, 0 => []
  | 0, _ + 1 => []
  | fuel + 1, v + 1 =>
    decDigitsAux fuel ((v + 1) / 10) ++ [Char.ofNat (48 + (v + 1) % 10)]

/-- `n.toString()` of an integer-valued JavaScript number. -/
def jsIntToString (v : Int) : List Char :=
  if v < 0 then '-' :: (if v.natAbs = 0 then ['0'] else decDigitsAux v.natAbs v.natAbs)
  else if v.natAbs = 0 then ['0'] else decDigitsAux v.natAbs v.natAbs

/-- Model of `parseFloat((value * 0.0001).toFixed(4)).toString()` for an
integer `value`.  For the values producible by the registry's schemas
(`|value| < 2 ^ 16`, at most two payload bytes per field) this chain is
exact: the double `value * 0.0001` differs from the rational
`value / 10000` by far less than half of the `toFixed(4)` rounding
quantum, so `toFixed(4)` yields the exact 4-decimal rendering of
`value / 10000`, and the `parseFloat`/`toString` round trip prints the
shortest decimal representation of that value, i.e. the same number with
trailing fractional zeros removed (and no decimal point when the
fractional part is zero). -/
def renderScaled4 (v : Int) : List Char :=
  let sign : List Char := if v < 0 then ['-'] else []
  let n := v.natAbs
  let q := n / 10000
  let r := n % 10000
  let intPart := if q = 0 then ['0'] else decDigitsAux q q
  if r = 0 then sign ++ intPart
  else
    let frac := (padStart 4 '0' (decDigitsAux r r)).reverse.dropWhile (fun c => c = '0')
    sign ++ intPart ++ '.' :: frac.reverse

/-- The string stored for one field by `decodeData`:
`parseInt(data.slice(startByte, endByte), 16)` (with
`startByte = field.start * 2`, `endByte = startByte + field.length * 2`),
scaled when `field.units === 'rad'`, then `value.toString()`.  A `NaN`
parse result stays `NaN` through the scaling chain and prints as
`"NaN"`. -/
def renderField (data : List Char) (f : PGNField) : List Char :=
  match jsParseIntHex ((data.drop (f.start * 2)).take (f.length * 2)) with
  | none => "NaN".data
  | some v => if f.units = "rad" then renderScaled4 v else jsIntToString v

/-- `decodeData` (named `decodePayload` in the specification): present with
identical decode logic in both `src/App.tsx` (a `forEach` filling a record)
and `src/unnamed/part_001` (a `reduce`); both build the field map in schema
order, modelled as an ordered association list.  The length check precedes
the registry lookup. -/
def decodeData (data : List Char) (pgn : Int) :
    Except DataError (List (String × List Char)) :=
  if data.length ≠ 16 then .error .invalidPayloadLength
  else
    match PGN_DATA pgn with
    | none => .error .unknownPgn
    | some info => .ok (info.fields.map (fun f => (f.name, renderField data f)))

/-! ## Bit-string machinery

`binChars w n` is the `w`-character binary string of `n % 2 ^ w`, most
significant bit first — the normal form through which the string slicing
of the binary-string decoder is related to arithmetic on the numeric value
of the identifier. -/

def binChars : Nat → Nat → List Char
  | 0, _ => []
  | w + 1, n => binChars w (n / 2) ++ [if n % 2 = 1 then '1' else '0']

theorem binChars_length (w n : Nat) : (binChars w n).length = w := by
  induction w generalizing n with
  | zero => rfl
  | succ w ih => simp [binChars, ih]

theorem binChars_split (a b n : Nat) :
    binChars (a + b) n = binChars a (n / 2 ^ b) ++ binChars b n := by
  induction b generalizing n with
  | zero => simp [binChars]
  | succ b ih =>
    have h1 : a + (b + 1) = (a + b) + 1 := by omega
    rw [h1]
    show binChars (a + b) (n / 2) ++ _ = _
    rw [ih (n / 2), Nat.div_div_eq_div_mul, List.append_assoc]
    have h2 : 2 ^ (b + 1) = 2 * 2 ^ b := by ring
    rw [h2, Nat.mul_comm 2 (2 ^ b)]
    rfl

theorem binChars_mod (w n : Nat) : binChars w (n % 2 ^ w) = binChars w n := by
  induction w generalizing n with
  | zero => rfl
  | succ w ih =>
    show binChars w (n % 2 ^ (w + 1) / 2) ++ _ = binChars w (n / 2) ++ _
    have h2 : 2 ^ (w + 1) = 2 * 2 ^ w := by ring
    have hdiv : n % 2 ^ (w + 1) / 2 = n / 2 % 2 ^ w := by
      rw [h2, Nat.mod_mul_right_div_self]
    have hmod : n % 2 ^ (w + 1) % 2 = n % 2 := by
      rw [h2]
      exact Nat.mod_mod_of_dvd n (Dvd.intro (2 ^ w) rfl)
    rw [hdiv, hmod, ih (n / 2)]

theorem binaryToDecimal_go (w n a : Nat) :
    (binChars w n).foldl (fun a c => 2 * a + (if c = '1' then 1 else 0)) a
      = a * 2 ^ w + n % 2 ^ w := by
  induction w generalizing n a with
  | zero => simp [binChars, Nat.mod_one]
  | succ w ih =>
    show ((binChars w (n / 2)) ++ [if n % 2 = 1 then '1' else '0']).foldl _ _ = _
    rw [List.foldl_append, ih]
    have h2 : (2 : Nat) ^ (w + 1) = 2 * 2 ^ w := by ring
    rw [h2, Nat.mod_mul]
    rcases Nat.mod_two_eq_zero_or_one n with h | h <;> simp [h] <;> ring

theorem binaryToDecimal_binChars (w n : Nat) :
    binaryToDecimal (binChars w n) = n % 2 ^ w := by
  have := binaryToDecimal_go w n 0
  simpa [binaryToDecimal] using this

theorem binChars_drop (a w n : Nat) (h : a ≤ w) :
    (binChars w n).drop a = binChars (w - a) n := by
  have hw : w = a + (w - a) := by omega
  conv_lhs => rw [hw, binChars_split]
  exact List.drop_left' (binChars_length a _)

theorem binChars_take (b w n : Nat) (h : b ≤ w) :
    (binChars w n).take b = binChars b (n / 2 ^ (w - b)) := by
  have hw : w = b + (w - b) := by omega
  conv_lhs => rw [hw, binChars_split]
  exact List.take_left' (binChars_length b _)

/-- Extracting `substring(a, a + b)` of the `w`-bit string and reading it
in base 2 yields the bit field `n / 2 ^ (w - a - b) % 2 ^ b`. -/
theorem binChars_field (w a b n : Nat) (h : a + b ≤ w) :
    binaryToDecimal (((binChars w n).drop a).take b)
      = n / 2 ^ (w - a - b) % 2 ^ b := by
  rw [binChars_drop a w n (by omega), binChars_take b (w - a) n (by omega),
    binaryToDecimal_binChars]

/-! ## `parseInt` on valid input -/

theorem not_ws_of_hexDigit {c : Char} (h : digitVal c < 16) :
    isJsWhitespace c = false := by
  rcases hws : isJsWhitespace c with _ | _
  · rfl
  · exfalso
    have hcs : c = ' ' ∨ c = '\t' ∨ c = '\n' ∨ c = '\r' ∨ c = '\x0b' ∨ c = '\x0c' := by
      simpa [isJsWhitespace, or_assoc] using hws
    rcases hcs with rfl | rfl | rfl | rfl | rfl | rfl <;> exact absurd h (by decide)

theorem splitSign_of_hexDigit {c : Char} (h : digitVal c < 16) (rest : List Char) :
    splitSign (c :: rest) = (false, c :: rest) := by
  show (if c = '-' then ((true : Bool), rest)
    else if c = '+' then ((false : Bool), rest) else ((false : Bool), c :: rest)) = _
  rw [if_neg, if_neg]
  · rintro rfl; exact absurd h (by decide)
  · rintro rfl; exact absurd h (by decide)

theorem stripHex0x_of_hex (c : Char) (rest : List Char)
    (hhex : ∀ d ∈ c :: rest, digitVal d < 16) :
    stripHex0x (c :: rest) = c :: rest := by
  cases rest with
  | nil => rfl
  | cons d r2 =>
    have hd : digitVal d < 16 := hhex d (by simp)
    show (if c = '0' ∧ (d = 'x' ∨ d = 'X') then r2 else c :: d :: r2) = _
    rw [if_neg]
    rintro ⟨-, rfl | rfl⟩ <;> exact absurd hd (by decide)

theorem jsParseIntHex_all_hex (c : Char) (rest : List Char)
    (hhex : ∀ d ∈ c :: rest, digitVal d < 16) :
    jsParseIntHex (c :: rest) = some ((hexVal (c :: rest) : Nat) : Int) := by
  have hc : digitVal c < 16 := hhex c (by simp)
  have h1 : (c :: rest).dropWhile isJsWhitespace = c :: rest := by
    rw [List.dropWhile_cons, not_ws_of_hexDigit hc]
    simp
  have h4 : (c :: rest).takeWhile (fun d => decide (digitVal d < 16)) = c :: rest :=
    List.takeWhile_eq_self_iff.mpr (fun x hx => by simpa using hhex x hx)
  simp only [jsParseIntHex, h1, splitSign_of_hexDigit hc rest,
    stripHex0x_of_hex c rest hhex, h4, List.isEmpty_cons, Bool.false_eq_true,
    if_false]
  simp [hexVal]

theorem jsParseIntHex_single_hex {c : Char} (h : digitVal c < 16) :
    jsParseIntHex [c] = some ((digitVal c : Nat) : Int) := by
  have := jsParseIntHex_all_hex c [] (by simpa using h)
  simpa [hexVal] using this

theorem jsParseIntHex_single_invalid {c : Char} (h : 16 ≤ digitVal c) :
    jsParseIntHex [c] = none := by
  by_cases hw : isJsWhitespace c = true
  · have h1 : ([c] : List Char).dropWhile isJsWhitespace = [] := by
      rw [List.dropWhile_cons, hw]
      simp [List.dropWhile]
    simp [jsParseIntHex, h1, splitSign, stripHex0x]
  · have h1 : ([c] : List Char).dropWhile isJsWhitespace = [c] := by
      rw [List.dropWhile_cons]
      rw [Bool.not_eq_true] at hw
      rw [hw]
      simp
    by_cases hminus : c = '-'
    · subst hminus
      simp [jsParseIntHex, h1, splitSign, stripHex0x]
    · by_cases hplus : c = '+'
      · subst hplus
        simp [jsParseIntHex, h1, splitSign, stripHex0x]
      · have h2 : splitSign [c] = (false, [c]) := by
          show (if c = '-' then ((true : Bool), ([] : List Char))
            else if c = '+' then ((false : Bool), ([] : List Char))
            else ((false : Bool), [c])) = _
          rw [if_neg hminus, if_neg hplus]
        have h4 : ([c] : List Char).takeWhile (fun d => decide (digitVal d < 16)) = [] := by
          have hpc : ¬ digitVal c < 16 := by omega
          simp [List.takeWhile_cons, hpc]
        simp [jsParseIntHex, h1, h2, stripHex0x, h4]

/-! ## `hexToBinary` on valid input -/

theorem toBin4_eq (v : Nat) (h : v < 16) : toBin4 v = binChars 4 v := by
  interval_cases v <;> decide

theorem hexToBinary_cons (c : Char) (l : List Char) :
    hexToBinary (c :: l) =
      match jsParseIntHex [c] with
      | none => .error .invalidHexDigit
      | some v =>
        match hexToBinary l with
        | .error e => .error e
        | .ok tail => .ok (toBin4 v.toNat ++ tail) := rfl

theorem hexToBinary_append_ok {xs bs : List Char} (hx : hexToBinary xs = .ok bs)
    (ys : List Char) :
    hexToBinary (xs ++ ys) = (hexToBinary ys).map (fun b => bs ++ b) := by
  induction xs generalizing bs with
  | nil =>
    cases hx
    rw [List.nil_append]
    rcases hys : hexToBinary ys with e | b <;> simp [Except.map, hys]
  | cons c xs ih =>
    rw [hexToBinary_cons] at hx
    cases hp : jsParseIntHex [c] with
    | none => rw [hp] at hx; cases hx
    | some v =>
      rw [hp] at hx
      cases hxs : hexToBinary xs with
      | error e => rw [hxs] at hx; cases hx
      | ok tail =>
        rw [hxs] at hx
        cases hx
        rw [List.cons_append, hexToBinary_cons, hp, ih hxs]
        rcases hys : hexToBinary ys with e | b <;>
          simp [Except.map, List.append_assoc]

theorem hexToBinary_valid (cs : List Char) (hhex : ∀ c ∈ cs, digitVal c < 16) :
    hexToBinary cs = .ok (binChars (4 * cs.length) (hexVal cs)) := by
  induction cs using List.reverseRecOn with
  | nil => rfl
  | append_singleton xs c ih =>
    have hx := ih (fun d hd => hhex d (by simp [hd]))
    have hc : digitVal c < 16 := hhex c (by simp)
    have hsingle : hexToBinary [c] = .ok (toBin4 (digitVal c)) := by
      rw [hexToBinary_cons, jsParseIntHex_single_hex hc]
      simp [hexToBinary]
    rw [hexToBinary_append_ok hx [c], hsingle]
    simp only [Except.map]
    have hval : hexVal (xs ++ [c]) = 16 * hexVal xs + digitVal c := by
      simp [hexVal, List.foldl_append]
    rw [toBin4_eq _ hc, hval]
    have hlen : 4 * (xs ++ [c]).length = 4 * xs.length + 4 := by
      simp [List.length_append]
      ring
    rw [hlen, binChars_split]
    have hdiv : (16 * hexVal xs + digitVal c) / 2 ^ 4 = hexVal xs := by omega
    have hmod4 : binChars 4 (16 * hexVal xs + digitVal c) = binChars 4 (digitVal c) := by
      rw [← binChars_mod 4 (16 * hexVal xs + digitVal c)]
      congr 1
      omega
    rw [hdiv, hmod4]

theorem hexVal_from_lt (cs : List Char) (hhex : ∀ c ∈ cs, digitVal c < 16) :
    ∀ a : Nat, cs.foldl (fun a c => 16 * a + digitVal c) a < (a + 1) * 16 ^ cs.length := by
  induction cs with
  | nil => intro a; simp
  | cons c rest ih =>
    intro a
    have hc : digitVal c < 16 := hhex c (by simp)
    have h1 := ih (fun d hd => hhex d (by simp [hd])) (16 * a + digitVal c)
    calc (c :: rest).foldl (fun a c => 16 * a + digitVal c) a
        = rest.foldl (fun a c => 16 * a + digitVal c) (16 * a + digitVal c) := rfl
      _ < (16 * a + digitVal c + 1) * 16 ^ rest.length := h1
      _ ≤ ((a + 1) * 16) * 16 ^ rest.length := by
          have hle : 16 * a + digitVal c + 1 ≤ (a + 1) * 16 := by omega
          exact Nat.mul_le_mul_right _ hle
      _ = (a + 1) * 16 ^ (c :: rest).length := by
          simp [List.length_cons]
          ring

theorem hexVal_lt (cs : List Char) (hhex : ∀ c ∈ cs, digitVal c < 16) :
    hexVal cs < 16 ^ cs.length := by
  have := hexVal_from_lt cs hhex 0
  simpa [hexVal] using this

/-! ## Arithmetic characterization of the binary-string decoder -/

theorem binaryToDecimal_append_zeros8 (xs : List Char) :
    binaryToDecimal (xs ++ "00000000".data) = binaryToDecimal xs * 256 := by
  unfold binaryToDecimal
  rw [List.foldl_append]
  show List.foldl _ _ ['0', '0', '0', '0', '0', '0', '0', '0'] = _
  simp [List.foldl]
  ring

theorem hexVal8_lt (cs : List Char) (h8 : cs.length = 8)
    (hhex : ∀ c ∈ cs, digitVal c < 16) : hexVal cs < 4294967296 := by
  have h := hexVal_lt cs hhex
  rw [h8] at h
  simpa using h

theorem decodeCanMessage_valid_pdu2 (cs : List Char) (h8 : cs.length = 8)
    (hhex : ∀ c ∈ cs, digitVal c < 16) (hPF : 240 ≤ hexVal cs / 65536 % 256) :
    decodeCanMessage cs =
      .ok { priority := ((hexVal cs / 67108864 % 8 : Nat) : Int)
            pgn := ((hexVal cs / 256 % 262144 : Nat) : Int)
            srcAddress := ((hexVal cs % 256 : Nat) : Int)
            destAddress := 255
            pduFormat := "PDU2" } := by
  simp only [decodeCanMessage, h8, hexToBinary_valid cs hhex, ne_eq]
  rw [binChars_drop 3 (4 * 8) (hexVal cs) (by omega)]
  simp only [show 4 * 8 - 3 = 29 from rfl, binChars_length]
  rw [binChars_take 3 29 (hexVal cs) (by omega),
    binaryToDecimal_binChars,
    binChars_field 29 5 8 (hexVal cs) (by omega),
    binChars_field 29 21 8 (hexVal cs) (by omega),
    binChars_field 29 3 18 (hexVal cs) (by omega)]
  norm_num [hPF]

theorem decodeCanMessage_valid_pdu1 (cs : List Char) (h8 : cs.length = 8)
    (hhex : ∀ c ∈ cs, digitVal c < 16) (hPF : hexVal cs / 65536 % 256 < 240) :
    decodeCanMessage cs =
      .ok { priority := ((hexVal cs / 67108864 % 8 : Nat) : Int)
            pgn := ((hexVal cs / 65536 % 1024 * 256 : Nat) : Int)
            srcAddress := ((hexVal cs % 256 : Nat) : Int)
            destAddress := ((hexVal cs / 256 % 256 : Nat) : Int)
            pduFormat := "PDU1" } := by
  simp only [decodeCanMessage, h8, hexToBinary_valid cs hhex, ne_eq]
  rw [binChars_drop 3 (4 * 8) (hexVal cs) (by omega)]
  simp only [show 4 * 8 - 3 = 29 from rfl, binChars_length]
  rw [binChars_take 3 29 (hexVal cs) (by omega),
    binaryToDecimal_binChars,
    binChars_field 29 5 8 (hexVal cs) (by omega),
    binChars_field 29 21 8 (hexVal cs) (by omega),
    binChars_field 29 13 8 (hexVal cs) (by omega)]
  rw [binChars_drop 3 29 (hexVal cs) (by omega),
    binChars_take 10 26 (hexVal cs) (by omega),
    binaryToDecimal_append_zeros8, binaryToDecimal_binChars]
  norm_num [Nat.not_le.mpr hPF]

/-! ## Arithmetic characterization of the 32-bit bitwise operators -/

theorem natAnd_zero_right (f a : Nat) : natAnd f a 0 = 0 := by
  induction f generalizing a with
  | zero => rfl
  | succ f ih => simp [natAnd, ih]

theorem natAnd_le_right (f a b : Nat) : natAnd f a b ≤ b := by
  induction f generalizing a b with
  | zero => exact Nat.zero_le b
  | succ f ih =>
    show min (a % 2) (b % 2) + 2 * natAnd f (a / 2) (b / 2) ≤ b
    have h1 : min (a % 2) (b % 2) ≤ b % 2 := Nat.min_le_right _ _
    have h2 : natAnd f (a / 2) (b / 2) ≤ b / 2 := ih _ _
    omega

theorem natAnd_two_pow_sub_one (f m a : Nat) (h : m ≤ f) :
    natAnd f a (2 ^ m - 1) = a % 2 ^ m := by
  induction m generalizing f a with
  | zero => simp [Nat.mod_one, natAnd_zero_right]
  | succ m ih =>
    obtain ⟨f, rfl⟩ : ∃ g, f = g + 1 := ⟨f - 1, by omega⟩
    show min (a % 2) ((2 ^ (m + 1) - 1) % 2) + 2 * natAnd f (a / 2) ((2 ^ (m + 1) - 1) / 2) = _
    have h2 : (2 : Nat) ^ (m + 1) = 2 * 2 ^ m := by ring
    have hodd : (2 ^ (m + 1) - 1) % 2 = 1 := by
      have : (1 : Nat) ≤ 2 ^ m := Nat.one_le_two_pow
      omega
    have hhalf : (2 ^ (m + 1) - 1) / 2 = 2 ^ m - 1 := by
      have : (1 : Nat) ≤ 2 ^ m := Nat.one_le_two_pow
      omega
    rw [hodd, hhalf, ih f (a / 2) (by omega)]
    have hmin : min (a % 2) 1 = a % 2 := by omega
    rw [hmin, h2, Nat.mod_mul]

theorem natAnd_mul_two_pow (f k c a : Nat) (h : k ≤ f) :
    natAnd f a (c * 2 ^ k) = natAnd (f - k) (a / 2 ^ k) c * 2 ^ k := by
  induction k generalizing f a with
  | zero => simp
  | succ k ih =>
    obtain ⟨f, rfl⟩ : ∃ g, f = g + 1 := ⟨f - 1, by omega⟩
    show min (a % 2) (c * 2 ^ (k + 1) % 2) + 2 * natAnd f (a / 2) (c * 2 ^ (k + 1) / 2) = _
    have h2 : c * 2 ^ (k + 1) = (c * 2 ^ k) * 2 := by ring
    have heven : c * 2 ^ (k + 1) % 2 = 0 := by omega
    have hhalf : c * 2 ^ (k + 1) / 2 = c * 2 ^ k := by omega
    rw [heven, hhalf, ih f (a / 2) (by omega)]
    have hdd : a / 2 / 2 ^ k = a / 2 ^ (k + 1) := by
      rw [Nat.div_div_eq_div_mul]
      congr 1
      ring
    have hs : f + 1 - (k + 1) = f - k := by omega
    have hmin : min (a % 2) 0 = 0 := by omega
    rw [hdd, hs, hmin]
    ring

theorem natAnd_mod_left (j f a mask : Nat) (hmask : mask < 2 ^ j) :
    natAnd f a mask = natAnd f (a % 2 ^ j) mask := by
  induction j generalizing f a mask with
  | zero =>
    have : mask = 0 := by simpa using hmask
    subst this
    rw [natAnd_zero_right, natAnd_zero_right]
  | succ j ih =>
    cases f with
    | zero => rfl
    | succ f =>
      show min (a % 2) (mask % 2) + 2 * natAnd f (a / 2) (mask / 2) = _
      have h2 : (2 : Nat) ^ (j + 1) = 2 * 2 ^ j := by ring
      have hm2 : a % 2 ^ (j + 1) % 2 = a % 2 := by
        rw [h2]
        exact Nat.mod_mod_of_dvd a (Dvd.intro (2 ^ j) rfl)
      have hdiv : a % 2 ^ (j + 1) / 2 = a / 2 % 2 ^ j := by
        rw [h2, Nat.mod_mul_right_div_self]
      have hmask2 : mask / 2 < 2 ^ j := by omega
      show _ = min (a % 2 ^ (j + 1) % 2) (mask % 2)
          + 2 * natAnd f (a % 2 ^ (j + 1) / 2) (mask / 2)
      rw [hm2, hdiv, ih f (a / 2) (mask / 2) hmask2]

theorem toUint32_ofNat {n : Nat} (hn : n < 4294967296) :
    toUint32 (n : Int) = n := by
  unfold toUint32
  have h1 : (n : Int) % 4294967296 = (n : Int) := by omega
  rw [h1]
  simp

theorem toUint32_patToInt32 {p : Nat} (hp : p < 4294967296) :
    toUint32 (patToInt32 p) = p := by
  unfold patToInt32 toUint32
  split <;> omega

theorem patToInt32_small {p : Nat} (hp : p < 2147483648) :
    patToInt32 p = (p : Int) := if_pos hp

/-- The value of `(n >> k) & mask` for a pattern `n < 2 ^ 32` and a mask
whose set bits all lie below bit `j` with `j + k ≤ 32` (so the sign-fill
bits introduced by the arithmetic shift are wiped by the mask). -/
theorem jsAnd_jsShr_mask (n k j mask : Nat) (hn : n < 4294967296)
    (hmask : mask < 2 ^ j) (hj : j + k ≤ 32) (hmask31 : mask < 2147483648) :
    jsAnd (jsShr (n : Int) k) (mask : Int)
      = ((natAnd 32 (n / 2 ^ k % 2 ^ j) mask : Nat) : Int) := by
  have hk32 : k ≤ 32 := by omega
  have hpow : (2 : Nat) ^ (32 - k) * 2 ^ k = 4294967296 := by
    rw [← pow_add]
    norm_num [Nat.sub_add_cancel hk32]
  have hdivlt : n / 2 ^ k < 2 ^ (32 - k) := by
    rw [Nat.div_lt_iff_lt_mul (Nat.pos_pow_of_pos k (by omega))]
    omega
  have hfill : 2 ^ (32 - k) ≤ 4294967296 := by
    calc (2 : Nat) ^ (32 - k) ≤ 2 ^ 32 := Nat.pow_le_pow_right (by omega) (by omega)
      _ = 4294967296 := by norm_num
  unfold jsShr
  rw [toUint32_ofNat hn]
  simp only
  set p := n / 2 ^ k + (if n < 2147483648 then 0 else 4294967296 - 2 ^ (32 - k)) with hp
  have hplt : p < 4294967296 := by
    rw [hp]
    split <;> omega
  unfold jsAnd
  rw [toUint32_patToInt32 hplt, toUint32_ofNat (by omega)]
  have hdvd : 2 ^ j ∣ 2 ^ (32 - k) := pow_dvd_pow 2 (by omega)
  have hpmod : p % 2 ^ j = n / 2 ^ k % 2 ^ j := by
    rw [hp]
    split
    · simp
    · obtain ⟨c, hc⟩ := hdvd
      have h32 : (4294967296 : Nat) = 2 ^ j * (2 ^ (32 - j)) := by
        rw [← pow_add]
        norm_num [Nat.add_sub_cancel' (show j ≤ 32 by omega)]
      have heq : 4294967296 - 2 ^ (32 - k) = 2 ^ j * (2 ^ (32 - j) - c) := by
        rw [h32, hc, Nat.mul_sub_left_distrib]
      rw [heq, Nat.add_mul_mod_self_left]
  rw [natAnd_mod_left j 32 p mask hmask, hpmod, ← natAnd_mod_left j 32 _ mask hmask]
  rw [natAnd_mod_left j 32 (n / 2 ^ k) mask hmask]
  have hle : natAnd 32 (n / 2 ^ k % 2 ^ j) mask ≤ mask := natAnd_le_right _ _ _
  rw [patToInt32_small (by omega)]

theorem natAnd32_7 (x : Nat) : natAnd 32 x 7 = x % 8 := by
  have h := natAnd_two_pow_sub_one 32 3 x (by norm_num)
  norm_num at h
  exact h

theorem natAnd32_255 (f x : Nat) (hf : 8 ≤ f) : natAnd f x 255 = x % 256 := by
  have h := natAnd_two_pow_sub_one f 8 x hf
  norm_num at h
  exact h

theorem natAnd32_262143 (x : Nat) : natAnd 32 x 262143 = x % 262144 := by
  have h := natAnd_two_pow_sub_one 32 18 x (by norm_num)
  norm_num at h
  exact h

theorem natAnd32_65280 (x : Nat) : natAnd 32 x 65280 = x / 256 % 256 * 256 := by
  have h1 := natAnd_mul_two_pow 32 8 255 x (by norm_num)
  norm_num at h1
  rw [h1, natAnd32_255 24 (x / 256) (by norm_num)]

theorem jsPriority_eq (n : Nat) (hn : n < 4294967296) :
    jsAnd (jsShr (n : Int) 26) 7 = ((n / 67108864 % 8 : Nat) : Int) := by
  have h := jsAnd_jsShr_mask n 26 3 7 hn (by norm_num) (by norm_num) (by norm_num)
  rw [natAnd32_7] at h
  have heq : n / 2 ^ 26 % 2 ^ 3 % 8 = n / 67108864 % 8 := by
    have h26 : (2 : Nat) ^ 26 = 67108864 := by norm_num
    have h3 : (2 : Nat) ^ 3 = 8 := by norm_num
    rw [h26, h3]
    omega
  rw [heq] at h
  exact_mod_cast h

theorem jsPdu_eq (n : Nat) (hn : n < 4294967296) :
    jsAnd (jsShr (n : Int) 16) 255 = ((n / 65536 % 256 : Nat) : Int) := by
  have h := jsAnd_jsShr_mask n 16 8 255 hn (by norm_num) (by norm_num) (by norm_num)
  rw [natAnd32_255 32 _ (by norm_num)] at h
  have heq : n / 2 ^ 16 % 2 ^ 8 % 256 = n / 65536 % 256 := by
    have h16 : (2 : Nat) ^ 16 = 65536 := by norm_num
    have h8 : (2 : Nat) ^ 8 = 256 := by norm_num
    rw [h16, h8]
    omega
  rw [heq] at h
  exact_mod_cast h

theorem jsPgn2_eq (n : Nat) (hn : n < 4294967296) :
    jsAnd (jsShr (n : Int) 8) 262143 = ((n / 256 % 262144 : Nat) : Int) := by
  have h := jsAnd_jsShr_mask n 8 18 262143 hn (by norm_num) (by norm_num) (by norm_num)
  rw [natAnd32_262143] at h
  have heq : n / 2 ^ 8 % 2 ^ 18 % 262144 = n / 256 % 262144 := by
    have h8 : (2 : Nat) ^ 8 = 256 := by norm_num
    have h18 : (2 : Nat) ^ 18 = 262144 := by norm_num
    rw [h8, h18]
    omega
  rw [heq] at h
  exact_mod_cast h

theorem jsDest1_eq (n : Nat) (hn : n < 4294967296) :
    jsAnd (jsShr (n : Int) 8) 255 = ((n / 256 % 256 : Nat) : Int) := by
  have h := jsAnd_jsShr_mask n 8 8 255 hn (by norm_num) (by norm_num) (by norm_num)
  rw [natAnd32_255 32 _ (by norm_num)] at h
  have heq : n / 2 ^ 8 % 2 ^ 8 % 256 = n / 256 % 256 := by
    have h8 : (2 : Nat) ^ 8 = 256 := by norm_num
    rw [h8]
    omega
  rw [heq] at h
  exact_mod_cast h

/-- The PDU1 `pgn` of the bitwise variant, `(num >> 16) & 0xFF00`: this
keeps bits 24-31 of the 32-bit value (the reserved/data-page bits together
with the priority bits and the three ignored top bits), shifted into bit
positions 8-15 — not the PDU-format byte. -/
theorem jsPgn1_eq (n : Nat) (hn : n < 4294967296) :
    jsAnd (jsShr (n : Int) 16) 65280 = ((n / 16777216 % 256 * 256 : Nat) : Int) := by
  have h := jsAnd_jsShr_mask n 16 16 65280 hn (by norm_num) (by norm_num) (by norm_num)
  rw [natAnd32_65280] at h
  have heq : n / 2 ^ 16 % 2 ^ 16 / 256 % 256 * 256 = n / 16777216 % 256 * 256 := by
    have h16 : (2 : Nat) ^ 16 = 65536 := by norm_num
    rw [h16]
    omega
  rw [heq] at h
  exact_mod_cast h

theorem jsSrc_eq (n : Nat) (hn : n < 4294967296) :
    jsAnd (n : Int) 255 = ((n % 256 : Nat) : Int) := by
  unfold jsAnd
  have h255 : toUint32 255 = 255 := by decide
  rw [toUint32_ofNat hn, h255, natAnd32_255 32 n (by norm_num),
    patToInt32_small (by omega)]

theorem decodeCanMessageBitwise_valid_pdu2 (cs : List Char) (h8 : cs.length = 8)
    (hhex : ∀ c ∈ cs, digitVal c < 16) (hPF : 240 ≤ hexVal cs / 65536 % 256) :
    decodeCanMessageBitwise cs =
      .ok { priority := ((hexVal cs / 67108864 % 8 : Nat) : Int)
            pgn := ((hexVal cs / 256 % 262144 : Nat) : Int)
            srcAddress := ((hexVal cs % 256 : Nat) : Int)
            destAddress := 255
            pduFormat := "PDU2" } := by
  obtain ⟨c, rest, rfl⟩ : ∃ c rest, cs = c :: rest := by
    cases cs with
    | nil => simp at h8
    | cons c rest => exact ⟨c, rest, rfl⟩
  have hn := hexVal8_lt _ h8 hhex
  unfold decodeCanMessageBitwise
  rw [if_neg (by simp [h8])]
  simp only [jsParseIntHex_all_hex c rest hhex, Option.getD_some]
  rw [jsPdu_eq _ hn, jsPriority_eq _ hn, jsPgn2_eq _ hn, jsSrc_eq _ hn]
  rw [if_pos (by exact_mod_cast hPF)]

theorem decodeCanMessageBitwise_valid_pdu1 (cs : List Char) (h8 : cs.length = 8)
    (hhex : ∀ c ∈ cs, digitVal c < 16) (hPF : hexVal cs / 65536 % 256 < 240) :
    decodeCanMessageBitwise cs =
      .ok { priority := ((hexVal cs / 67108864 % 8 : Nat) : Int)
            pgn := ((hexVal cs / 16777216 % 256 * 256 : Nat) : Int)
            srcAddress := ((hexVal cs % 256 : Nat) : Int)
            destAddress := ((hexVal cs / 256 % 256 : Nat) : Int)
            pduFormat := "PDU1" } := by
  obtain ⟨c, rest, rfl⟩ : ∃ c rest, cs = c :: rest := by
    cases cs with
    | nil => simp at h8
    | cons c rest => exact ⟨c, rest, rfl⟩
  have hn := hexVal8_lt _ h8 hhex
  unfold decodeCanMessageBitwise
  rw [if_neg (by simp [h8])]
  simp only [jsParseIntHex_all_hex c rest hhex, Option.getD_some]
  rw [jsPdu_eq _ hn, jsPriority_eq _ hn, jsPgn1_eq _ hn, jsSrc_eq _ hn, jsDest1_eq _ hn]
  rw [if_neg (by
    rw [not_le]
    exact_mod_cast hPF)]

/-! ## Payload decoder on valid input -/

theorem jsParseIntHex_all_hex_ne (cs : List Char) (hne : cs ≠ [])
    (hhex : ∀ d ∈ cs, digitVal d < 16) :
    jsParseIntHex cs = some ((hexVal cs : Nat) : Int) := by
  cases cs with
  | nil => exact absurd rfl hne
  | cons c rest => exact jsParseIntHex_all_hex c rest hhex

theorem renderField_hex (data : List Char) (h16 : data.length = 16)
    (hhex : ∀ c ∈ data, digitVal c < 16) (f : PGNField) (hl : 0 < f.length)
    (hr : f.start * 2 + f.length * 2 ≤ 16) :
    renderField data f =
      (if f.units = "rad"
       then renderScaled4 ((hexVal ((data.drop (f.start * 2)).take (f.length * 2)) : Nat) : Int)
       else jsIntToString ((hexVal ((data.drop (f.start * 2)).take (f.length * 2)) : Nat) : Int)) := by
  have hsub : ∀ x ∈ (data.drop (f.start * 2)).take (f.length * 2), digitVal x < 16 :=
    fun x hx => hhex x (List.drop_subset _ _ (List.take_subset _ _ hx))
  have hne : (data.drop (f.start * 2)).take (f.length * 2) ≠ [] := by
    have hlt : 0 < ((data.drop (f.start * 2)).take (f.length * 2)).length := by
      rw [List.length_take, List.length_drop, h16]
      omega
    exact List.ne_nil_of_length_pos hlt
  unfold renderField
  rw [jsParseIntHex_all_hex_ne _ hne hsub]

theorem decodeData_127508 (data : List Char) (h16 : data.length = 16)
    (hhex : ∀ c ∈ data, digitVal c < 16) :
    decodeData data 127508 =
      .ok [("SID", jsIntToString ((hexVal (data.take 2) : Nat) : Int)),
           ("Heading", renderScaled4 ((hexVal ((data.drop 2).take 4) : Nat) : Int)),
           ("Deviation", renderScaled4 ((hexVal ((data.drop 6).take 4) : Nat) : Int)),
           ("Variation", renderScaled4 ((hexVal ((data.drop 10).take 4) : Nat) : Int)),
           ("Reference", jsIntToString ((hexVal ((data.drop 14).take 2) : Nat) : Int))] := by
  unfold decodeData
  rw [if_neg (by simp [h16])]
  rw [show PGN_DATA 127508 = some vesselHeadingInfo from rfl]
  simp only [vesselHeadingInfo, List.map_cons, List.map_nil]
  rw [renderField_hex data h16 hhex { name := "SID", start := 0, length := 1, units := "" }
      (by norm_num) (by norm_num),
    renderField_hex data h16 hhex { name := "Heading", start := 1, length := 2, units := "rad" }
      (by norm_num) (by norm_num),
    renderField_hex data h16 hhex { name := "Deviation", start := 3, length := 2, units := "rad" }
      (by norm_num) (by norm_num),
    renderField_hex data h16 hhex { name := "Variation", start := 5, length := 2, units := "rad" }
      (by norm_num) (by norm_num),
    renderField_hex data h16 hhex { name := "Reference", start := 7, length := 1, units := "" }
      (by norm_num) (by norm_num)]
  norm_num
  constructor <;> intro hco <;> exact absurd hco (by decide)

/-! ## Error paths and successful-decode inversion -/

theorem hexToBinary_error_of_invalid (cs : List Char)
    (h : ∃ c ∈ cs, 16 ≤ digitVal c) :
    hexToBinary cs = .error IdError.invalidHexDigit := by
  induction cs with
  | nil => simp at h
  | cons c rest ih =>
    by_cases hc : 16 ≤ digitVal c
    · rw [hexToBinary_cons, jsParseIntHex_single_invalid hc]
    · have hrest : ∃ d ∈ rest, 16 ≤ digitVal d := by
        obtain ⟨d, hd, hdge⟩ := h
        rcases List.mem_cons.mp hd with rfl | hdr
        · exact absurd hdge (by omega)
        · exact ⟨d, hdr, hdge⟩
      rw [hexToBinary_cons, jsParseIntHex_single_hex (by omega), ih hrest]

theorem decodeCanMessage_ok_valid {cs : List Char} {r : DecodedCAN}
    (h : decodeCanMessage cs = .ok r) :
    cs.length = 8 ∧ ∀ c ∈ cs, digitVal c < 16 := by
  by_cases h8 : cs.length = 8
  · refine ⟨h8, ?_⟩
    by_contra hcon
    push_neg at hcon
    obtain ⟨c, hc, hge⟩ := hcon
    unfold decodeCanMessage at h
    rw [if_neg (by simp [h8]), hexToBinary_error_of_invalid cs ⟨c, hc, by omega⟩] at h
    cases h
  · unfold decodeCanMessage at h
    rw [if_pos h8] at h
    cases h

theorem decodeCanMessageBitwise_ok_len {cs : List Char} {r : DecodedCAN}
    (h : decodeCanMessageBitwise cs = .ok r) : cs.length = 8 := by
  by_contra h8
  unfold decodeCanMessageBitwise at h
  rw [if_pos h8] at h
  cases h

/-- The branch structure of the bitwise decoder on a length-8 input
(no hex-digit validation happens: `num` may come from a `NaN` or a
partially parsed string). -/
theorem decodeCanMessageBitwise_eq (cs : List Char) (h8 : cs.length = 8) :
    decodeCanMessageBitwise cs =
      (if 240 ≤ jsAnd (jsShr ((jsParseIntHex cs).getD 0) 16) 255 then
        Except.ok { priority := jsAnd (jsShr ((jsParseIntHex cs).getD 0) 26) 7
                    pgn := jsAnd (jsShr ((jsParseIntHex cs).getD 0) 8) 262143
                    srcAddress := jsAnd ((jsParseIntHex cs).getD 0) 255
                    destAddress := 255
                    pduFormat := "PDU2" }
      else
        Except.ok { priority := jsAnd (jsShr ((jsParseIntHex cs).getD 0) 26) 7
                    pgn := jsAnd (jsShr ((jsParseIntHex cs).getD 0) 16) 65280
                    srcAddress := jsAnd ((jsParseIntHex cs).getD 0) 255
                    destAddress := jsAnd (jsShr ((jsParseIntHex cs).getD 0) 8) 255
                    pduFormat := "PDU1" }) := by
  unfold decodeCanMessageBitwise
  rw [if_neg (by simp [h8])]

/-- `x & 0xFF00` always has zero low byte (and is nonnegative). -/
theorem jsAnd_65280_mod_256 (a : Int) : jsAnd a 65280 % 256 = 0 := by
  unfold jsAnd
  have h : toUint32 (65280 : Int) = 65280 := by decide
  rw [h, natAnd32_65280]
  unfold patToInt32
  split <;> omega

/-! ## Claim theorems -/

/-- C1: for every 8-character valid-hex identifier whose PF byte
(bits 23-16) is below 240, the binary-string `decodeCanMessage` (the
variant the specification follows) classifies the frame as PDU1, returns
`pgn` equal to the 18-bit value formed by concatenating the
reserved+data-page bits (2 bits) and the PF byte (8 bits) shifted into the
high bits with the low 8 bits zeroed (the PS byte contributes nothing),
and returns `destAddress` equal to the PS byte (bits 15-8). -/
theorem c1_pdu1_decode (cs : List Char) (h8 : cs.length = 8)
    (hhex : ∀ c ∈ cs, digitVal c < 16)
    (hPF : hexVal cs / 65536 % 256 < 240) :
    decodeCanMessage cs =
      .ok { priority := ((hexVal cs / 67108864 % 8 : Nat) : Int)
            pgn := (((hexVal cs / 16777216 % 4 * 256 + hexVal cs / 65536 % 256) * 256 : Nat) : Int)
            srcAddress := ((hexVal cs % 256 : Nat) : Int)
            destAddress := ((hexVal cs / 256 % 256 : Nat) : Int)
            pduFormat := "PDU1" } := by
  rw [decodeCanMessage_valid_pdu1 cs h8 hhex hPF]
  have heq : hexVal cs / 65536 % 1024 * 256
      = (hexVal cs / 16777216 % 4 * 256 + hexVal cs / 65536 % 256) * 256 := by
    omega
  rw [heq]

/-- Witness for C1 at the PDU1 identifier `19EF1451`
(PF = 0xEF = 239, reserved+data-page = 01, PS = 0x14). -/
theorem c1_pdu1_decode_witness :
    decodeCanMessage ("19EF1451".data) =
      .ok { priority := 6, pgn := 126720, srcAddress := 81, destAddress := 20,
            pduFormat := "PDU1" } := by
  have h := c1_pdu1_decode ("19EF1451".data) (by decide) (by decide) (by decide)
  exact h.trans (by decide)

/-- C2: every 8-character valid-hex identifier decodes; the classification
is PDU2 exactly when the PF byte is at least 240, and in the PDU2 case the
`pgn` is the 18-bit concatenation of reserved+data-page (2 bits), PF
(8 bits) and PS (8 bits), with `destAddress = 255`. -/
theorem c2_pdu2_decode (cs : List Char) (h8 : cs.length = 8)
    (hhex : ∀ c ∈ cs, digitVal c < 16) :
    ((decodeCanMessage cs).map DecodedCAN.pduFormat
        = .ok (if 240 ≤ hexVal cs / 65536 % 256 then "PDU2" else "PDU1"))
    ∧ (240 ≤ hexVal cs / 65536 % 256 →
        decodeCanMessage cs =
          .ok { priority := ((hexVal cs / 67108864 % 8 : Nat) : Int)
                pgn := ((hexVal cs / 16777216 % 4 * 65536 + hexVal cs / 65536 % 256 * 256
                          + hexVal cs / 256 % 256 : Nat) : Int)
                srcAddress := ((hexVal cs % 256 : Nat) : Int)
                destAddress := 255
                pduFormat := "PDU2" }) := by
  constructor
  · by_cases hPF : 240 ≤ hexVal cs / 65536 % 256
    · rw [decodeCanMessage_valid_pdu2 cs h8 hhex hPF, if_pos hPF]
      rfl
    · rw [decodeCanMessage_valid_pdu1 cs h8 hhex (by omega), if_neg hPF]
      rfl
  · intro hPF
    rw [decodeCanMessage_valid_pdu2 cs h8 hhex hPF]
    have heq : hexVal cs / 256 % 262144 = hexVal cs / 16777216 % 4 * 65536
        + hexVal cs / 65536 % 256 * 256 + hexVal cs / 256 % 256 := by
      omega
    rw [heq]

/-- Witness for C2 at `19F21451` (PF = 0xF2 = 242 ≥ 240). -/
theorem c2_pdu2_decode_witness :
    (decodeCanMessage ("19F21451".data)).map DecodedCAN.pduFormat = .ok "PDU2"
      ∧ decodeCanMessage ("19F21451".data) =
          .ok { priority := 6, pgn := 127508, srcAddress := 81, destAddress := 255,
                pduFormat := "PDU2" } := by
  have h := c2_pdu2_decode ("19F21451".data) (by decide) (by decide)
  exact ⟨h.1.trans (by decide), (h.2 (by decide)).trans (by decide)⟩

/-- C3 counterexample: on the PDU1 identifier `19EF1451` (PF = 0xEF = 239)
the bitwise variant returns `pgn = 6400 = 0x1900`, which is not
`PF << 8 = 239 * 256 = 61184`: the claim that the bitwise variant computes
the PDU1 PGN as the PF byte zero-padded into the low 8 bits is false. -/
theorem c3_counterexample :
    (decodeCanMessageBitwise ("19EF1451".data)).map DecodedCAN.pgn = .ok 6400
      ∧ (6400 : Int) ≠ 239 * 256 := by
  constructor
  · decide
  · decide

/-- C3 amended: the binary-string variant preserves the reserved/data-page
bits in the PDU1 PGN (`pgn = (rdp * 256 + PF) * 256`); the bitwise variant
computes the PDU1 PGN as `(num >> 16) & 0xFF00`, i.e. bits 24-31 of the
parsed 32-bit value (reserved/data-page, priority and the three ignored
top bits — not the PF byte) shifted into bit positions 8-15. -/
theorem c3_amended_pgn_derivations (cs : List Char) (h8 : cs.length = 8)
    (hhex : ∀ c ∈ cs, digitVal c < 16)
    (hPF : hexVal cs / 65536 % 256 < 240) :
    ((decodeCanMessage cs).map DecodedCAN.pgn
        = .ok (((hexVal cs / 16777216 % 4 * 256 + hexVal cs / 65536 % 256) * 256 : Nat) : Int))
    ∧ ((decodeCanMessageBitwise cs).map DecodedCAN.pgn
        = .ok ((hexVal cs / 16777216 % 256 * 256 : Nat) : Int)) := by
  constructor
  · rw [decodeCanMessage_valid_pdu1 cs h8 hhex hPF]
    have heq : hexVal cs / 65536 % 1024 * 256
        = (hexVal cs / 16777216 % 4 * 256 + hexVal cs / 65536 % 256) * 256 := by
      omega
    simp only [Except.map]
    rw [heq]
  · rw [decodeCanMessageBitwise_valid_pdu1 cs h8 hhex hPF]
    rfl

/-- Witness for the amended C3 at `19EF1451`: the binary-string variant
yields `pgn = 126720 = 0x1EF00`, the bitwise variant `pgn = 6400 = 0x1900`. -/
theorem c3_amended_pgn_derivations_witness :
    (decodeCanMessage ("19EF1451".data)).map DecodedCAN.pgn = .ok 126720
      ∧ (decodeCanMessageBitwise ("19EF1451".data)).map DecodedCAN.pgn = .ok 6400 := by
  have h := c3_amended_pgn_derivations ("19EF1451".data) (by decide) (by decide) (by decide)
  exact ⟨h.1.trans (by decide), h.2.trans (by decide)⟩

/-- C4 counterexample: the bitwise variant accepts the 8-character input
`0000000G`, which contains the invalid hex digit `G`: `parseInt` parses
the prefix `0000000` and a `CanIdentifier` is returned, so the claim that
every malformed input fails is false for this implementation. -/
theorem c4_counterexample :
    decodeCanMessageBitwise ("0000000G".data) =
      .ok { priority := 0, pgn := 0, srcAddress := 0, destAddress := 0,
            pduFormat := "PDU1" } := by
  decide

/-- C4 amended: the binary-string `decodeCanMessage` rejects every input
that is not 8 valid hex characters with `invalidLength` or
`invalidHexDigit`; the bitwise variant validates only the length. -/
theorem c4_amended_validation :
    (∀ cs : List Char, ¬(cs.length = 8 ∧ ∀ c ∈ cs, digitVal c < 16) →
      decodeCanMessage cs = .error IdError.invalidLength
        ∨ decodeCanMessage cs = .error IdError.invalidHexDigit)
    ∧ (∀ cs : List Char, cs.length ≠ 8 →
        decodeCanMessageBitwise cs = .error IdError.invalidLength) := by
  constructor
  · intro cs hcon
    by_cases h8 : cs.length = 8
    · right
      push_neg at hcon
      obtain ⟨c, hc, hge⟩ := hcon h8
      unfold decodeCanMessage
      rw [if_neg (by simp [h8]), hexToBinary_error_of_invalid cs ⟨c, hc, by omega⟩]
    · left
      unfold decodeCanMessage
      rw [if_pos h8]
  · intro cs h8
    unfold decodeCanMessageBitwise
    rw [if_pos h8]

/-- Witness for the amended C4: a 7-character input fails in the
binary-string variant, a 3-character input fails in the bitwise variant. -/
theorem c4_amended_validation_witness :
    (decodeCanMessage ("1234567".data) = .error IdError.invalidLength
      ∨ decodeCanMessage ("1234567".data) = .error IdError.invalidHexDigit)
    ∧ decodeCanMessageBitwise ("123".data) = .error IdError.invalidLength :=
  ⟨c4_amended_validation.1 ("1234567".data) (by decide),
    c4_amended_validation.2 ("123".data) (by decide)⟩

/-- C5 counterexample: the 16-character payload `GGGGGGGGGGGGGGGG` is not
valid hexadecimal, yet `decodeData` does not fail: only the length is
checked, `parseInt` yields `NaN` for every field and the decode succeeds
with `"NaN"` values. -/
theorem c5_counterexample :
    decodeData ("GGGGGGGGGGGGGGGG".data) 127508 =
      .ok [("SID", "NaN".data), ("Heading", "NaN".data), ("Deviation", "NaN".data),
           ("Variation", "NaN".data), ("Reference", "NaN".data)] := by
  decide

/-- C5 amended: for every payload whose length is not 16, `decodeData`
fails with `invalidPayloadLength` for every PGN argument alike (the check
precedes the registry lookup); hex-digit validity of a 16-character
payload is not checked. -/
theorem c5_amended_length_check (data : List Char) (pgn : Int)
    (hlen : data.length ≠ 16) :
    decodeData data pgn = .error DataError.invalidPayloadLength := by
  unfold decodeData
  rw [if_pos hlen]

/-- Witness for the amended C5: a 15-character payload fails with
`invalidPayloadLength` even for the registered PGN 127508. -/
theorem c5_amended_length_check_witness :
    decodeData ("00123456789ABCD".data) 127508 = .error DataError.invalidPayloadLength :=
  c5_amended_length_check ("00123456789ABCD".data) 127508 (by decide)

/-- C6 counterexample: `decodeCanMessage "19F21451"` does not return
priority 0 — the priority bits (28-26) of 0x19F21451 are `110` = 6. -/
theorem c6_counterexample :
    (decodeCanMessage ("19F21451".data)).map DecodedCAN.priority ≠ .ok 0 := by
  decide

/-- C6 amended: `decodeCanMessage "19F21451"` succeeds with priority = 6
(not 0), PDU2 (PF = 0xF2 = 242 ≥ 240), sourceAddress = 0x51 = 81 and
destinationAddress = 255 (and pgn = 127508). -/
theorem c6_amended_scenario :
    decodeCanMessage ("19F21451".data) =
      .ok { priority := 6, pgn := 127508, srcAddress := 81, destAddress := 255,
            pduFormat := "PDU2" } := by
  decide

/-- C7: on every 16-character valid-hex payload, `decodeData` against PGN
127508's schema extracts each field's byte range as a big-endian unsigned
integer; the fields with unit `rad` (Heading, Deviation, Variation) are
scaled by 0.0001 and rounded to 4 decimal places before being rendered as
text (`renderScaled4`), the unit-less fields (SID, Reference) are rendered
as the raw integer. -/
theorem c7_radian_scaling (data : List Char) (h16 : data.length = 16)
    (hhex : ∀ c ∈ data, digitVal c < 16) :
    decodeData data 127508 =
      .ok [("SID", jsIntToString ((hexVal (data.take 2) : Nat) : Int)),
           ("Heading", renderScaled4 ((hexVal ((data.drop 2).take 4) : Nat) : Int)),
           ("Deviation", renderScaled4 ((hexVal ((data.drop 6).take 4) : Nat) : Int)),
           ("Variation", renderScaled4 ((hexVal ((data.drop 10).take 4) : Nat) : Int)),
           ("Reference", jsIntToString ((hexVal ((data.drop 14).take 2) : Nat) : Int))] :=
  decodeData_127508 data h16 hhex

/-- Witness for C7: Scenario 2 of the specification.  Payload
`00123456789ABCDE` yields SID = "0" and Heading = the scaled value of
bytes 0x1234 = 4660, i.e. 0.4660 rad, rendered as the text "0.466"
(the `parseFloat`/`toString` round trip drops the trailing zero of
`toFixed(4)`). -/
theorem c7_radian_scaling_witness :
    decodeData ("00123456789ABCDE".data) 127508 =
      .ok [("SID", "0".data), ("Heading", "0.466".data), ("Deviation", "2.2136".data),
           ("Variation", "3.9612".data), ("Reference", "222".data)] := by
  have h := c7_radian_scaling ("00123456789ABCDE".data) (by decide) (by decide)
  exact h.trans (by decide)

/-- C8: for every 16-character hexadecimal payload and every PGN without a
registry entry (any `pgn ≠ 127508`), `decodeData` fails with `unknownPgn`
— never another error class, and no decoded mapping is produced. -/
theorem c8_unknown_pgn (data : List Char) (pgn : Int) (h16 : data.length = 16)
    (_hhex : ∀ c ∈ data, digitVal c < 16) (hpgn : pgn ≠ 127508) :
    decodeData data pgn = .error DataError.unknownPgn := by
  unfold decodeData
  rw [if_neg (by simp [h16]), show PGN_DATA pgn = none by unfold PGN_DATA; rw [if_neg hpgn]]

/-- Witness for C8: Scenario 4, the unregistered PGN 999999. -/
theorem c8_unknown_pgn_witness :
    decodeData ("00123456789ABCDE".data) 999999 = .error DataError.unknownPgn :=
  c8_unknown_pgn ("00123456789ABCDE".data) 999999 (by decide) (by decide) (by decide)

/-- C9: in both implementations, every successful decode classified PDU1
has the low 8 bits of `pgn` equal to zero. -/
theorem c9_pdu1_low_bits_zero :
    (∀ (cs : List Char) (r : DecodedCAN), decodeCanMessage cs = .ok r →
        r.pduFormat = "PDU1" → r.pgn % 256 = 0)
    ∧ (∀ (cs : List Char) (r : DecodedCAN), decodeCanMessageBitwise cs = .ok r →
        r.pduFormat = "PDU1" → r.pgn % 256 = 0) := by
  constructor
  · intro cs r hok hfmt
    obtain ⟨h8, hhex⟩ := decodeCanMessage_ok_valid hok
    by_cases hPF : 240 ≤ hexVal cs / 65536 % 256
    · rw [decodeCanMessage_valid_pdu2 cs h8 hhex hPF] at hok
      cases hok
      simp at hfmt
    · rw [decodeCanMessage_valid_pdu1 cs h8 hhex (by omega)] at hok
      cases hok
      show ((hexVal cs / 65536 % 1024 * 256 : Nat) : Int) % 256 = 0
      omega
  · intro cs r hok hfmt
    have h8 := decodeCanMessageBitwise_ok_len hok
    rw [decodeCanMessageBitwise_eq cs h8] at hok
    split at hok
    · have hfmt2 : r.pduFormat = "PDU2" := by rw [← Except.ok.inj hok]
      exact absurd (hfmt2.symm.trans hfmt) (by decide)
    · have hpgn : r.pgn = jsAnd (jsShr ((jsParseIntHex cs).getD 0) 16) 65280 := by
        rw [← Except.ok.inj hok]
      rw [hpgn]
      exact jsAnd_65280_mod_256 _

/-- Witness for C9 at the PDU1 decode of `19EF1451` in the binary-string
variant (pgn = 126720 = 0x1EF00). -/
theorem c9_pdu1_low_bits_zero_witness : (126720 : Int) % 256 = 0 :=
  c9_pdu1_low_bits_zero.1 ("19EF1451".data)
    { priority := 6, pgn := 126720, srcAddress := 81, destAddress := 20,
      pduFormat := "PDU1" }
    (by decide) rfl

/-- C10: on every 8-character valid-hex identifier whose PF byte is at
least 240 (PDU2), the two `decodeCanMessage` implementations return
identical results in every component; their disagreement is confined to
PDU1 inputs. -/
theorem c10_pdu2_agreement (cs : List Char) (h8 : cs.length = 8)
    (hhex : ∀ c ∈ cs, digitVal c < 16) (hPF : 240 ≤ hexVal cs / 65536 % 256) :
    decodeCanMessage cs = decodeCanMessageBitwise cs := by
  rw [decodeCanMessage_valid_pdu2 cs h8 hhex hPF,
    decodeCanMessageBitwise_valid_pdu2 cs h8 hhex hPF]

/-- Witness for C10 at the PDU2 identifier `19F21451`. -/
theorem c10_pdu2_agreement_witness :
    decodeCanMessage ("19F21451".data) = decodeCanMessageBitwise ("19F21451".data) :=
  c10_pdu2_agreement ("19F21451".data) (by decide) (by decide) (by decide)
